import Mathlib

/-!
# Formal model of the `fan` package (fast-fan-in)

A shallow embedding of the Go package `fan`, which merges many channels of a
common element type into a single output channel (`Config.FanIn` in
`fan-in.go`), together with proofs of the behavioural properties claimed for
it.

The embedding has three layers:

* the per-invocation forwarding step (`reflectiveSelectFunc`, the documented
  `SelectFunc` shape, and the specialized step returned by `Ints`), modelled as
  pure functions on the observed outcome of the Go `select` statement;
* the setup-time validation and construction performed by `Config.FanIn`
  (lines 573-601, 627-628 of `fan-in.go`), modelled over reflection-style type
  descriptors;
* an operational interleaving model of a running merge: one worker per source,
  a completion counter (`sync.WaitGroup`), the close coordinator, and the
  caller-side cancellation signal, as a step function on merge states driven
  by an explicit schedule of actions.
-/

/-- The state of a Go channel as seen by a receiver: the elements that are
still to be received (in order), and whether the channel has been closed by
its owner. -/
structure ChanState (E : Type) where
  pending : List E
  closed : Bool
  deriving DecidableEq, Repr

/-- The possible outcomes of attempting a receive on a channel: a value is
delivered, the channel is closed and empty (the receive returns the zero
value with `more = false`), or the receive would block. -/
inductive RecvOutcome (E : Type) where
  | received (e : E)
  | closedEmpty
  | blocked
  deriving DecidableEq, Repr

/-- Go receive semantics on a channel state: a pending element is delivered
first; a closed empty channel reports closed (never blocking, never yielding
a new element); an open empty channel blocks. -/
def recvObserve {E : Type} (c : ChanState E) : RecvOutcome E :=
  match c.pending with
  | e :: _ => .received e
  | [] => if c.closed then .closedEmpty else .blocked

/-- The outcome of the `select` statement inside a forwarding step, as
observed when the statement unblocks: either the `done` channel's case fired
(the done channel is closed), or the input channel's case fired, delivering
`elem` with `more` indicating whether it is a real element (`more = true`)
or the input channel was observed closed (`more = false`). -/
inductive SelectObservation (E : Type) where
  | doneChanClosed
  | inputChanRead (elem : E) (more : Bool)
  deriving DecidableEq, Repr

/-- A forwarding step returns the `shouldStop` verdict and the element it
sent on the output channel, if any. -/
abbrev StepResult (E : Type) := Bool × Option E

/-- Embedding of `reflectiveSelectFunc` (`fan-in.go` lines 536-561): the
default reflection-based forwarding step. On the done case it returns `true`;
on an input read with `more = false` it returns `true`; otherwise it sends
the element on the output channel and returns `false`. -/
def reflectiveSelectFunc {E : Type} (obs : SelectObservation E) : StepResult E :=
  match obs with
  | .doneChanClosed => (true, none)
  | .inputChanRead elem more =>
      if !more then (true, none)
      else (false, some elem)

/-- Embedding of the documented `SelectFunc` shape (`fan-in.go` lines
500-511): the specialized forwarding step a caller writes, generic here over
the element type it is pre-bound to. -/
def docSelectFunc {E : Type} (obs : SelectObservation E) : StepResult E :=
  match obs with
  | .doneChanClosed => (true, none)
  | .inputChanRead element more =>
      if !more then (true, none)
      else (false, some element)

/-- Embedding of the `SelectFunc` carried by the config returned by `Ints`
(`fan-in.go` lines 304-319): the specialized forwarding step pre-bound to
element type `int`. -/
def IntsSelectFunc (obs : SelectObservation Int) : StepResult Int :=
  match obs with
  | .doneChanClosed => (true, none)
  | .inputChanRead element more =>
      if !more then (true, none)
      else (false, some element)

/-- C2: a forwarding step invocation (reflectiveSelectFunc, or any SelectFunc
of the documented shape): observing the done channel fired returns stop
without forwarding; observing the input closed returns stop without
forwarding; otherwise it forwards exactly the one received element and
returns false. -/
theorem selectFunc_step_behaviour {E : Type} (obs : SelectObservation E) :
    (obs = .doneChanClosed →
      reflectiveSelectFunc obs = (true, none) ∧ docSelectFunc obs = (true, none)) ∧
    (∀ e : E, obs = .inputChanRead e false →
      reflectiveSelectFunc obs = (true, none) ∧ docSelectFunc obs = (true, none)) ∧
    (∀ e : E, obs = .inputChanRead e true →
      reflectiveSelectFunc obs = (false, some e) ∧ docSelectFunc obs = (false, some e)) := by
  refine ⟨?_, ?_, ?_⟩
  · rintro rfl; exact ⟨rfl, rfl⟩
  · rintro e rfl; exact ⟨rfl, rfl⟩
  · rintro e rfl; exact ⟨rfl, rfl⟩

/-- Witness for C2 at concrete observations over `Int`. -/
theorem selectFunc_step_behaviour_witness :
    (reflectiveSelectFunc (E := Int) .doneChanClosed = (true, none) ∧
      docSelectFunc (E := Int) .doneChanClosed = (true, none)) ∧
    (reflectiveSelectFunc (.inputChanRead (0 : Int) false) = (true, none) ∧
      docSelectFunc (.inputChanRead (0 : Int) false) = (true, none)) ∧
    (reflectiveSelectFunc (.inputChanRead (5 : Int) true) = (false, some 5) ∧
      docSelectFunc (.inputChanRead (5 : Int) true) = (false, some 5)) :=
  ⟨(selectFunc_step_behaviour .doneChanClosed).1 rfl,
    (selectFunc_step_behaviour _).2.1 0 rfl,
    (selectFunc_step_behaviour _).2.2 5 rfl⟩

/-- C3: under every observation of the done, input, and output channels, the
generic reflection-based step returns the same stop verdict and forwards the
same element as the specialized step pre-bound to `int` returned by `Ints`. -/
theorem reflective_equals_Ints_selectFunc (obs : SelectObservation Int) :
    reflectiveSelectFunc obs = IntsSelectFunc obs := by
  cases obs with
  | doneChanClosed => rfl
  | inputChanRead elem more => cases more <;> rfl

/-! ## Setup-time validation (`Config.FanIn`, `fan-in.go` lines 573-601, 627-628) -/

/-- Go channel directions as reported by `reflect.Type.ChanDir`. -/
inductive ChanDir where
  | recvDir
  | sendDir
  | bothDir
  deriving DecidableEq, Repr

/-- The `reflect.Kind`s distinguished by the validation in `FanIn`: channel
versus everything else (a representative sample of non-channel kinds). -/
inductive GoKind where
  | chanKind
  | intKind
  | stringKind
  | boolKind
  | float64Kind
  | interfaceKind
  | sliceKind
  | structKind
  | funcKind
  deriving DecidableEq, Repr

/-- Dynamic type descriptors for the `interface{}` arguments passed to
`FanIn`, mirroring what `reflect.TypeOf` reports: kind, channel direction
and channel element type. -/
inductive GoType where
  | intType
  | stringType
  | boolType
  | float64Type
  | emptyInterface
  | structType (name : String)
  | funcType
  | sliceType (elem : GoType)
  | chanType (dir : ChanDir) (elem : GoType)
  deriving DecidableEq, Repr

/-- `reflect.Type.Kind()` on a type descriptor. -/
def GoType.kind : GoType → GoKind
  | .intType => .intKind
  | .stringType => .stringKind
  | .boolType => .boolKind
  | .float64Type => .float64Kind
  | .emptyInterface => .interfaceKind
  | .structType _ => .structKind
  | .funcType => .funcKind
  | .sliceType _ => .sliceKind
  | .chanType _ _ => .chanKind

/-- `reflect.Type.Elem()` on a channel type descriptor. -/
def GoType.elem : GoType → Option GoType
  | .chanType _ e => some e
  | _ => none

/-- The descriptive panic conditions raised by `FanIn` validation
(`fan-in.go` lines 575, 583, 587, 596), each identifying the offending
argument index and reason. -/
inductive FanInPanic where
  | noChannels
  | notAChannel (i : Nat) (k : GoKind)
  | noReceive (i : Nat) (d : ChanDir)
  | typeMismatch (i : Nat) (elem prev : GoType)
  deriving DecidableEq, Repr

/-- One iteration of the validation loop body (`fan-in.go` lines 579-598):
panic if the argument is not a channel; panic if its direction supports no
receive; establish the element type from the first channel, and afterwards
panic on any element type differing from the established one. -/
def checkChannel (i : Nat) (elementType : Option GoType) (t : GoType) :
    Except FanInPanic (Option GoType) :=
  match t with
  | .chanType dir elem =>
      if dir ≠ .bothDir ∧ dir ≠ .recvDir then .error (.noReceive i dir)
      else
        match elementType with
        | none => .ok (some elem)
        | some prev =>
            if prev ≠ elem then .error (.typeMismatch i elem prev)
            else .ok (some prev)
  | t => .error (.notAChannel i t.kind)

/-- The validation loop of `FanIn` over the remaining arguments, carrying the
running index and the element type established so far (`elementType` starts
as the `nil` sentinel, modelled by `none`). -/
def validateFrom (i : Nat) (elementType : Option GoType) :
    List GoType → Except FanInPanic (Option GoType)
  | [] => .ok elementType
  | t :: rest =>
      match checkChannel i elementType t with
      | .error e => .error e
      | .ok et => validateFrom (i + 1) et rest

/-- The whole validation phase of `FanIn` (`fan-in.go` lines 574-598): the
non-emptiness check followed by the loop. The `.ok none` branch is
unreachable, because the loop over a nonempty list either fails or
establishes an element type. -/
def validateChannels (channels : List GoType) : Except FanInPanic GoType :=
  if channels.length < 1 then .error .noChannels
  else
    match validateFrom 0 none channels with
    | .error e => .error e
    | .ok none => .error .noChannels
    | .ok (some t) => .ok t

/-- What a successful `FanIn` call constructs (`fan-in.go` lines 599-628):
the shared element type, the internal output channel
`reflect.MakeChan(reflect.ChanOf(reflect.BothDir, elementType), 0)`, one
worker goroutine per input channel, the receive-only conversion applied to
each worker's input channel (line 607), and the returned handle converted to
`reflect.ChanOf(reflect.RecvDir, elementType)` (line 628). -/
structure MergeSetup where
  elemType : GoType
  output : GoType
  outputCap : Nat
  numWorkers : Nat
  workerInputDir : ChanDir
  returned : GoType
  deriving DecidableEq, Repr

/-- Embedding of `Config.FanIn` setup (`fan-in.go` lines 573-628): validate
the arguments, then construct the output channel, the workers and the
returned receive-only handle. On a validation panic nothing is
constructed. -/
def FanIn (channels : List GoType) : Except FanInPanic MergeSetup :=
  match validateChannels channels with
  | .error e => .error e
  | .ok elementType =>
      .ok { elemType := elementType
            output := .chanType .bothDir elementType
            outputCap := 0
            numWorkers := channels.length
            workerInputDir := .recvDir
            returned := .chanType .recvDir elementType }

/-- A validation panic correctly describes the argument list: it names an
index whose argument offends for the named reason (for a type mismatch, the
recorded previous type is the first channel's element type). -/
def errIdentifies (ts : List GoType) : FanInPanic → Prop
  | .noChannels => ts = []
  | .notAChannel j k => ∃ t, ts.get? j = some t ∧ t.kind = k ∧ k ≠ GoKind.chanKind
  | .noReceive j d => (∃ e, ts.get? j = some (.chanType d e)) ∧ d = .sendDir
  | .typeMismatch j e prev =>
      (∃ d, ts.get? j = some (.chanType d e)) ∧
      (∃ d0, ts.get? 0 = some (.chanType d0 prev)) ∧ e ≠ prev

theorem checkChannel_error_cases (i : Nat) (et : Option GoType) (t : GoType) (err : FanInPanic)
    (h : checkChannel i et t = .error err) :
    (err = .notAChannel i t.kind ∧ t.kind ≠ GoKind.chanKind) ∨
    (∃ e, err = .noReceive i ChanDir.sendDir ∧ t = .chanType .sendDir e) ∨
    (∃ d e prev, err = .typeMismatch i e prev ∧ t = .chanType d e ∧ et = some prev ∧ e ≠ prev) := by
  cases t with
  | chanType dir elem =>
      cases dir with
      | sendDir =>
          refine Or.inr (Or.inl ⟨elem, ?_, rfl⟩)
          simp [checkChannel] at h
          exact h.symm
      | bothDir =>
          cases et with
          | none => simp [checkChannel] at h
          | some prev =>
              by_cases hpe : prev = elem
              · subst hpe; simp [checkChannel] at h
              · refine Or.inr (Or.inr ⟨ChanDir.bothDir, elem, prev, ?_, rfl, rfl, fun hc => hpe hc.symm⟩)
                simp [checkChannel, hpe] at h
                exact h.symm
      | recvDir =>
          cases et with
          | none => simp [checkChannel] at h
          | some prev =>
              by_cases hpe : prev = elem
              · subst hpe; simp [checkChannel] at h
              · refine Or.inr (Or.inr ⟨ChanDir.recvDir, elem, prev, ?_, rfl, rfl, fun hc => hpe hc.symm⟩)
                simp [checkChannel, hpe] at h
                exact h.symm
  | intType => exact Or.inl ⟨(Except.error.inj h).symm, by decide⟩
  | stringType => exact Or.inl ⟨(Except.error.inj h).symm, by decide⟩
  | boolType => exact Or.inl ⟨(Except.error.inj h).symm, by decide⟩
  | float64Type => exact Or.inl ⟨(Except.error.inj h).symm, by decide⟩
  | emptyInterface => exact Or.inl ⟨(Except.error.inj h).symm, by decide⟩
  | structType name => exact Or.inl ⟨(Except.error.inj h).symm, by simp [GoType.kind]⟩
  | funcType => exact Or.inl ⟨(Except.error.inj h).symm, by decide⟩
  | sliceType e => exact Or.inl ⟨(Except.error.inj h).symm, by simp [GoType.kind]⟩

theorem checkChannel_some_ok (i : Nat) (e0 : GoType) (t : GoType) (et : Option GoType)
    (h : checkChannel i (some e0) t = .ok et) :
    et = some e0 ∧ ∃ d, t = .chanType d e0 ∧ d ≠ ChanDir.sendDir := by
  cases t with
  | chanType dir elem =>
      cases dir with
      | sendDir => simp [checkChannel] at h
      | bothDir =>
          by_cases hpe : e0 = elem
          · subst hpe
            simp [checkChannel] at h
            exact ⟨h.symm, ChanDir.bothDir, rfl, by decide⟩
          · simp [checkChannel, hpe] at h
      | recvDir =>
          by_cases hpe : e0 = elem
          · subst hpe
            simp [checkChannel] at h
            exact ⟨h.symm, ChanDir.recvDir, rfl, by decide⟩
          · simp [checkChannel, hpe] at h
  | intType => simp [checkChannel] at h
  | stringType => simp [checkChannel] at h
  | boolType => simp [checkChannel] at h
  | float64Type => simp [checkChannel] at h
  | emptyInterface => simp [checkChannel] at h
  | structType name => simp [checkChannel] at h
  | funcType => simp [checkChannel] at h
  | sliceType e => simp [checkChannel] at h

theorem checkChannel_none_ok (i : Nat) (t : GoType) (et : Option GoType)
    (h : checkChannel i none t = .ok et) :
    ∃ d e, t = .chanType d e ∧ d ≠ ChanDir.sendDir ∧ et = some e := by
  cases t with
  | chanType dir elem =>
      cases dir with
      | sendDir => simp [checkChannel] at h
      | bothDir =>
          simp [checkChannel] at h
          exact ⟨ChanDir.bothDir, elem, rfl, by decide, h.symm⟩
      | recvDir =>
          simp [checkChannel] at h
          exact ⟨ChanDir.recvDir, elem, rfl, by decide, h.symm⟩
  | intType => simp [checkChannel] at h
  | stringType => simp [checkChannel] at h
  | boolType => simp [checkChannel] at h
  | float64Type => simp [checkChannel] at h
  | emptyInterface => simp [checkChannel] at h
  | structType name => simp [checkChannel] at h
  | funcType => simp [checkChannel] at h
  | sliceType e => simp [checkChannel] at h

theorem checkChannel_some_chan_ok (i : Nat) (e0 : GoType) (d : ChanDir)
    (hd : d ≠ ChanDir.sendDir) :
    checkChannel i (some e0) (.chanType d e0) = .ok (some e0) := by
  cases d with
  | sendDir => exact absurd rfl hd
  | bothDir => simp [checkChannel]
  | recvDir => simp [checkChannel]

theorem validateFrom_ok_some (l : List GoType) :
    ∀ (i : Nat) (e0 : GoType) (et : Option GoType),
    validateFrom i (some e0) l = .ok et ↔
      (et = some e0 ∧ ∀ t ∈ l, ∃ d, t = GoType.chanType d e0 ∧ d ≠ ChanDir.sendDir) := by
  induction l with
  | nil =>
      intro i e0 et
      constructor
      · intro h
        simp [validateFrom] at h
        exact ⟨h.symm, by simp⟩
      · rintro ⟨rfl, -⟩; rfl
  | cons t rest ih =>
      intro i e0 et
      constructor
      · intro h
        rw [validateFrom] at h
        cases hc : checkChannel i (some e0) t with
        | error e => rw [hc] at h; exact absurd h (by simp)
        | ok et1 =>
            rw [hc] at h
            obtain ⟨rfl, d, rfl, hd⟩ := checkChannel_some_ok i e0 t et1 hc
            obtain ⟨he, hall⟩ := (ih (i + 1) e0 et).mp h
            exact ⟨he, by
              intro u hu
              rcases List.mem_cons.mp hu with h1 | h2
              · exact ⟨d, h1, hd⟩
              · exact hall u h2⟩
      · rintro ⟨rfl, hall⟩
        obtain ⟨d, rfl, hd⟩ := hall t (List.mem_cons_self t rest)
        rw [validateFrom, checkChannel_some_chan_ok i e0 d hd]
        exact (ih (i + 1) e0 (some e0)).mpr ⟨rfl, fun u hu => hall u (List.mem_cons_of_mem _ hu)⟩

theorem validateFrom_error_some (l : List GoType) :
    ∀ (i : Nat) (e0 : GoType) (err : FanInPanic),
    validateFrom i (some e0) l = .error err →
    ∃ k t, l.get? k = some t ∧
      ((err = .notAChannel (i + k) t.kind ∧ t.kind ≠ GoKind.chanKind) ∨
       (∃ e, err = .noReceive (i + k) ChanDir.sendDir ∧ t = .chanType .sendDir e) ∨
       (∃ d e, err = .typeMismatch (i + k) e e0 ∧ t = .chanType d e ∧ e ≠ e0)) := by
  induction l with
  | nil => intro i e0 err h; simp [validateFrom] at h
  | cons t rest ih =>
      intro i e0 err h
      rw [validateFrom] at h
      cases hc : checkChannel i (some e0) t with
      | error epanic =>
          rw [hc] at h
          simp at h
          subst h
          refine ⟨0, t, rfl, ?_⟩
          rcases checkChannel_error_cases i (some e0) t epanic hc with ⟨h1, h1k⟩ |
            ⟨e1, h2, h3⟩ | ⟨d1, e1, prev1, h4, h5, h6, h7⟩
          · exact Or.inl ⟨h1, h1k⟩
          · exact Or.inr (Or.inl ⟨e1, h2, h3⟩)
          · have hprev : prev1 = e0 := (Option.some.inj h6).symm
            subst hprev
            exact Or.inr (Or.inr ⟨d1, e1, h4, h5, h7⟩)
      | ok et1 =>
          rw [hc] at h
          obtain ⟨rfl, d, rfl, hd⟩ := checkChannel_some_ok i e0 t et1 hc
          obtain ⟨k, u, hget, hcase⟩ := ih (i + 1) e0 err h
          refine ⟨k + 1, u, by simpa using hget, ?_⟩
          have harith : i + 1 + k = i + (k + 1) := by omega
          rw [harith] at hcase
          exact hcase

theorem validateChannels_cons (t0 : GoType) (rest : List GoType) :
    validateChannels (t0 :: rest) =
      match validateFrom 0 none (t0 :: rest) with
      | .error e => .error e
      | .ok none => .error .noChannels
      | .ok (some t) => .ok t := by
  rw [validateChannels, if_neg (by simp)]

theorem validateFrom_cons_none (t0 : GoType) (rest : List GoType)
    (hv : validateFrom 0 none (t0 :: rest) = .ok none) : False := by
  rw [validateFrom] at hv
  cases hc : checkChannel 0 none t0 with
  | error e1 => rw [hc] at hv; exact Except.noConfusion hv
  | ok et1 =>
      rw [hc] at hv
      obtain ⟨d0, e0, rfl, hd0, rfl⟩ := checkChannel_none_ok 0 t0 et1 hc
      obtain ⟨heq, -⟩ := (validateFrom_ok_some rest 1 e0 none).mp hv
      exact Option.noConfusion heq

theorem FanIn_ok_elim (ts : List GoType) (s : MergeSetup) (h : FanIn ts = .ok s) :
    ∃ d0 e0 rest, ts = GoType.chanType d0 e0 :: rest ∧
      (∀ t ∈ ts, ∃ d, t = GoType.chanType d e0 ∧ d ≠ ChanDir.sendDir) ∧
      s = { elemType := e0, output := .chanType .bothDir e0, outputCap := 0,
            numWorkers := ts.length, workerInputDir := .recvDir,
            returned := .chanType .recvDir e0 } := by
  cases ts with
  | nil => exact Except.noConfusion h
  | cons t0 rest =>
      rw [FanIn, validateChannels_cons] at h
      cases hv : validateFrom 0 none (t0 :: rest) with
      | error e1 => rw [hv] at h; exact Except.noConfusion h
      | ok et =>
          rw [hv] at h
          cases et with
          | none => exact absurd hv (fun hc => validateFrom_cons_none t0 rest hc)
          | some efound =>
              rw [validateFrom] at hv
              cases hc : checkChannel 0 none t0 with
              | error e1 => rw [hc] at hv; exact Except.noConfusion hv
              | ok et1 =>
                  rw [hc] at hv
                  obtain ⟨d0, e0, rfl, hd0, rfl⟩ := checkChannel_none_ok 0 t0 et1 hc
                  obtain ⟨hef, hall⟩ := (validateFrom_ok_some rest 1 e0 (some efound)).mp hv
                  obtain rfl : efound = e0 := Option.some.inj hef
                  refine ⟨d0, efound, rest, rfl, ?_, (Except.ok.inj h).symm⟩
                  intro u hu
                  rcases List.mem_cons.mp hu with h1 | h2
                  · exact ⟨d0, h1, hd0⟩
                  · exact hall u h2

theorem FanIn_ok_intro (d0 : ChanDir) (e0 : GoType) (rest : List GoType)
    (hd0 : d0 ≠ ChanDir.sendDir)
    (hrest : ∀ t ∈ rest, ∃ d, t = GoType.chanType d e0 ∧ d ≠ ChanDir.sendDir) :
    FanIn (GoType.chanType d0 e0 :: rest) =
      .ok { elemType := e0, output := .chanType .bothDir e0, outputCap := 0,
            numWorkers := rest.length + 1, workerInputDir := .recvDir,
            returned := .chanType .recvDir e0 } := by
  have hc : checkChannel 0 none (GoType.chanType d0 e0) = .ok (some e0) := by
    cases d0 with
    | sendDir => exact absurd rfl hd0
    | bothDir => simp [checkChannel]
    | recvDir => simp [checkChannel]
  have hv : validateFrom 0 none (GoType.chanType d0 e0 :: rest) = .ok (some e0) := by
    rw [validateFrom, hc]
    exact (validateFrom_ok_some rest 1 e0 (some e0)).mpr ⟨rfl, hrest⟩
  rw [FanIn, validateChannels_cons, hv]
  rfl

theorem validateFrom_top_error (t0 : GoType) (rest : List GoType) (err : FanInPanic)
    (hv : validateFrom 0 none (t0 :: rest) = .error err) :
    errIdentifies (t0 :: rest) err := by
  rw [validateFrom] at hv
  cases hc : checkChannel 0 none t0 with
  | error e1 =>
      rw [hc] at hv
      obtain rfl : e1 = err := by simpa using hv
      rcases checkChannel_error_cases 0 none t0 _ hc with ⟨h1, h1k⟩ | ⟨e2, h2, h3⟩ |
        ⟨d2, e2, prev2, h4, h5, h6, h7⟩
      · rw [h1]; exact ⟨t0, rfl, rfl, h1k⟩
      · rw [h2]; exact ⟨⟨e2, by simp [h3]⟩, rfl⟩
      · exact Option.noConfusion h6
  | ok et1 =>
      rw [hc] at hv
      obtain ⟨d0, e0, rfl, hd0, rfl⟩ := checkChannel_none_ok 0 t0 et1 hc
      obtain ⟨k, u, hget, hcase⟩ := validateFrom_error_some rest 1 e0 err hv
      have hts : (GoType.chanType d0 e0 :: rest).get? (1 + k) = some u := by
        rw [Nat.add_comm]
        simpa using hget
      rcases hcase with ⟨h1, h1k⟩ | ⟨e2, h2, h3⟩ | ⟨d2, e2, h4, h5, h6⟩
      · rw [h1]; exact ⟨u, hts, rfl, h1k⟩
      · rw [h2]
        rw [h3] at hts
        exact ⟨⟨e2, hts⟩, rfl⟩
      · rw [h4]
        rw [h5] at hts
        exact ⟨⟨d2, hts⟩, ⟨d0, rfl⟩, h6⟩

/-- C5: whenever validation fails, `FanIn` raises the panic synchronously and
no merge setup (no output channel, no workers) is produced. -/
theorem FanIn_fails_synchronously (ts : List GoType) (err : FanInPanic)
    (h : validateChannels ts = .error err) :
    FanIn ts = .error err ∧ ∀ s : MergeSetup, FanIn ts ≠ .ok s := by
  have hf : FanIn ts = .error err := by rw [FanIn, h]
  exact ⟨hf, fun s hs => by rw [hf] at hs; exact Except.noConfusion hs⟩

/-- Witness for C5 at the empty argument list. -/
theorem FanIn_fails_synchronously_witness :
    validateChannels [] = .error .noChannels ∧
      (FanIn [] = .error .noChannels ∧ ∀ s : MergeSetup, FanIn [] ≠ .ok s) :=
  ⟨rfl, FanIn_fails_synchronously [] .noChannels rfl⟩

/-- C6: a successful `FanIn` returns a receive-only channel handle whose
element type is the element type shared by all input channels, and the
underlying output channel is bidirectional with zero buffer capacity. -/
theorem FanIn_ok_output_shape (ts : List GoType) (s : MergeSetup)
    (h : FanIn ts = .ok s) :
    s.returned = .chanType .recvDir s.elemType ∧
    s.output = .chanType .bothDir s.elemType ∧
    s.outputCap = 0 ∧
    ∀ t ∈ ts, t.elem = some s.elemType := by
  obtain ⟨d0, e0, rest, rfl, hall, rfl⟩ := FanIn_ok_elim ts s h
  refine ⟨rfl, rfl, rfl, ?_⟩
  intro u hu
  obtain ⟨d, rfl, -⟩ := hall u hu
  rfl

/-- Witness for C6 at a single bidirectional channel of `int`. -/
theorem FanIn_ok_output_shape_witness :
    ∃ s : MergeSetup, FanIn [GoType.chanType .bothDir .intType] = .ok s ∧
      (s.returned = .chanType .recvDir s.elemType ∧
       s.output = .chanType .bothDir s.elemType ∧
       s.outputCap = 0 ∧
       ∀ t ∈ [GoType.chanType .bothDir .intType], t.elem = some s.elemType) :=
  ⟨_, rfl, FanIn_ok_output_shape _ _ rfl⟩

/-- C10: the homogeneity check compares only element types, by exact type
identity: any mixture of receive-only and bidirectional channel directions
over one element type is accepted, while `chan int` together with
`chan interface\x7b\x7d` is rejected as a type mismatch even though `int` is
assignable to the empty interface. -/
theorem FanIn_homogeneity_exact_identity :
    (∀ (e0 : GoType) (d0 : ChanDir) (dirs : List ChanDir), d0 ≠ ChanDir.sendDir →
      (∀ d ∈ dirs, d ≠ ChanDir.sendDir) →
      ∃ s, FanIn ((d0 :: dirs).map (fun d => GoType.chanType d e0)) = .ok s ∧
        s.elemType = e0) ∧
    FanIn [GoType.chanType .bothDir .intType, GoType.chanType .bothDir .emptyInterface] =
      .error (.typeMismatch 1 .emptyInterface .intType) := by
  constructor
  · intro e0 d0 dirs hd0 hdirs
    refine ⟨{ elemType := e0, output := .chanType .bothDir e0, outputCap := 0,
              numWorkers := (dirs.map fun d => GoType.chanType d e0).length + 1,
              workerInputDir := .recvDir, returned := .chanType .recvDir e0 }, ?_, rfl⟩
    rw [List.map_cons]
    refine FanIn_ok_intro d0 e0 (dirs.map fun d => GoType.chanType d e0) hd0 ?_
    intro u hu
    obtain ⟨d, hd, rfl⟩ := List.mem_map.mp hu
    exact ⟨d, rfl, hdirs d hd⟩
  · rfl

/-- Witness for C10: a bidirectional and a receive-only `int` channel are
accepted together. -/
theorem FanIn_homogeneity_exact_identity_witness :
    ∃ s, FanIn ([ChanDir.bothDir, ChanDir.recvDir].map
        (fun d => GoType.chanType d .intType)) = .ok s ∧
      s.elemType = .intType :=
  FanIn_homogeneity_exact_identity.1 .intType .bothDir [.recvDir] (by decide) (by decide)

/-! ### The full argument domain, including the untyped nil interface

An `interface\x7b\x7d` argument passed to `FanIn` is either a value carrying a
dynamic type (modelled by `some` of its `GoType` descriptor) or the untyped
nil interface (modelled by `none`). For the latter, `reflect.TypeOf` at line
580 returns the nil `reflect.Type` — the very value the code uses as its
sentinel at line 577 — and the call `t.Kind()` at line 582 is then a method
call on a nil interface: a runtime nil-pointer-dereference panic that
carries no argument index and no reason. -/

/-- A setup-time panic of `FanIn` over the full argument domain: either one
of the descriptive validation conditions, or the non-descriptive runtime
nil-pointer dereference raised when `t.Kind()` (line 582) is invoked on the
nil `reflect.Type` obtained from an untyped nil argument. -/
inductive FanInCrash where
  | descriptive (p : FanInPanic)
  | nilDereference
  deriving DecidableEq, Repr

/-- Lift a result of the typed validation into the full panic domain. -/
def liftErr {α : Type} : Except FanInPanic α → Except FanInCrash α
  | .error e => .error (.descriptive e)
  | .ok a => .ok a

/-- One iteration of the validation loop (lines 579-598) over the full
argument domain: an untyped nil argument crashes with the non-descriptive
nil dereference before any check runs; a typed argument is checked exactly
as in `checkChannel`. -/
def checkChannelArg (i : Nat) (elementType : Option GoType) (arg : Option GoType) :
    Except FanInCrash (Option GoType) :=
  match arg with
  | none => .error .nilDereference
  | some t => liftErr (checkChannel i elementType t)

/-- The validation loop of `FanIn` over the full argument domain. -/
def validateFromArgs (i : Nat) (elementType : Option GoType) :
    List (Option GoType) → Except FanInCrash (Option GoType)
  | [] => .ok elementType
  | a :: rest =>
      match checkChannelArg i elementType a with
      | .error e => .error e
      | .ok et => validateFromArgs (i + 1) et rest

/-- The whole validation phase of `FanIn` over the full argument domain: the
non-emptiness check followed by the loop (the `.ok none` branch is
unreachable for a nonempty list, as before). -/
def validateChannelArgs (channels : List (Option GoType)) : Except FanInCrash GoType :=
  if channels.length < 1 then .error (.descriptive .noChannels)
  else
    match validateFromArgs 0 none channels with
    | .error e => .error e
    | .ok none => .error (.descriptive .noChannels)
    | .ok (some t) => .ok t

/-- `Config.FanIn` setup over the full argument domain: validate, then
construct the output channel, workers and returned handle exactly as in
`FanIn`; on any panic nothing is constructed. -/
def FanInArgs (channels : List (Option GoType)) : Except FanInCrash MergeSetup :=
  match validateChannelArgs channels with
  | .error e => .error e
  | .ok elementType =>
      .ok { elemType := elementType
            output := .chanType .bothDir elementType
            outputCap := 0
            numWorkers := channels.length
            workerInputDir := .recvDir
            returned := .chanType .recvDir elementType }

/-- An offending position in the full argument domain, in the claim's sense:
the argument is not a channel (which includes the untyped nil interface,
which carries no dynamic type at all), is a send-only channel, or is a
channel whose element type differs from the first channel's element type. -/
def badArgOpt (ts : List (Option GoType)) (j : Nat) : Prop :=
  ∃ a, ts.get? j = some a ∧
    ((∀ d e, a ≠ some (GoType.chanType d e)) ∨
     (∃ e, a = some (GoType.chanType .sendDir e)) ∨
     (∃ d e d0 e0, a = some (GoType.chanType d e) ∧
       ts.get? 0 = some (some (GoType.chanType d0 e0)) ∧ e ≠ e0))

/-- A panic over the full argument domain identifies the offense: a
descriptive condition names an index whose argument offends for the named
reason (for a type mismatch, the recorded previous type is the first
channel's element type); the nil dereference identifies nothing. -/
def argIdentifies (ts : List (Option GoType)) : FanInCrash → Prop
  | .descriptive .noChannels => ts = []
  | .descriptive (.notAChannel j k) =>
      ∃ t, ts.get? j = some (some t) ∧ t.kind = k ∧ k ≠ GoKind.chanKind
  | .descriptive (.noReceive j d) =>
      (∃ e, ts.get? j = some (some (GoType.chanType d e))) ∧ d = ChanDir.sendDir
  | .descriptive (.typeMismatch j e prev) =>
      (∃ d, ts.get? j = some (some (GoType.chanType d e))) ∧
      (∃ d0, ts.get? 0 = some (some (GoType.chanType d0 prev))) ∧ e ≠ prev
  | .nilDereference => False

theorem validateChannelArgs_cons (a : Option GoType) (rest : List (Option GoType)) :
    validateChannelArgs (a :: rest) =
      match validateFromArgs 0 none (a :: rest) with
      | .error e => .error e
      | .ok none => .error (.descriptive .noChannels)
      | .ok (some t) => .ok t := by
  rw [validateChannelArgs, if_neg (by simp)]

theorem validateFromArgs_map_some (l : List GoType) :
    ∀ (i : Nat) (et : Option GoType),
    validateFromArgs i et (l.map some) = liftErr (validateFrom i et l) := by
  induction l with
  | nil => intro i et; rfl
  | cons t rest ih =>
      intro i et
      rw [List.map_cons, validateFromArgs, validateFrom]
      simp only [checkChannelArg]
      cases hc : checkChannel i et t with
      | error e => rfl
      | ok et1 => exact ih (i + 1) et1

/-- On argument lists without an untyped nil, the full-domain model coincides
with the typed model: the same descriptive panic, or the same setup. -/
theorem FanInArgs_coincides_without_nil (ts : List GoType) :
    FanInArgs (ts.map some) = liftErr (FanIn ts) := by
  cases ts with
  | nil => rfl
  | cons t rest =>
      have hv := validateFromArgs_map_some (t :: rest) 0 none
      rw [List.map_cons] at hv
      rw [List.map_cons, FanInArgs, FanIn, validateChannelArgs_cons, validateChannels_cons, hv]
      cases hvv : validateFrom 0 none (t :: rest) with
      | error e => rfl
      | ok et =>
          cases et with
          | none => rfl
          | some e0 => simp [liftErr]

theorem validateFromArgs_ok_some (l : List (Option GoType)) :
    ∀ (i : Nat) (e0 : GoType) (et : Option GoType),
    validateFromArgs i (some e0) l = .ok et ↔
      (et = some e0 ∧
        ∀ a ∈ l, ∃ d, a = some (GoType.chanType d e0) ∧ d ≠ ChanDir.sendDir) := by
  induction l with
  | nil =>
      intro i e0 et
      constructor
      · intro h
        simp [validateFromArgs] at h
        exact ⟨h.symm, by simp⟩
      · rintro ⟨rfl, -⟩; rfl
  | cons a rest ih =>
      intro i e0 et
      constructor
      · intro h
        rw [validateFromArgs] at h
        cases a with
        | none => exact Except.noConfusion h
        | some t =>
            simp only [checkChannelArg] at h
            cases hc : checkChannel i (some e0) t with
            | error e =>
                rw [hc] at h
                exact Except.noConfusion h
            | ok et1 =>
                rw [hc] at h
                have h2 : validateFromArgs (i + 1) et1 rest = .ok et := h
                obtain ⟨rfl, d, rfl, hd⟩ := checkChannel_some_ok i e0 t et1 hc
                obtain ⟨he, hall⟩ := (ih (i + 1) e0 et).mp h2
                refine ⟨he, ?_⟩
                intro u hu
                rcases List.mem_cons.mp hu with h1 | h2m
                · exact ⟨d, h1, hd⟩
                · exact hall u h2m
      · rintro ⟨rfl, hall⟩
        obtain ⟨d, ha, hd⟩ := hall a (List.mem_cons_self a rest)
        subst ha
        rw [validateFromArgs]
        simp only [checkChannelArg]
        rw [checkChannel_some_chan_ok i e0 d hd]
        exact (ih (i + 1) e0 (some e0)).mpr
          ⟨rfl, fun u hu => hall u (List.mem_cons_of_mem _ hu)⟩

theorem validateFromArgs_error_some (l : List (Option GoType)) :
    ∀ (i : Nat) (e0 : GoType) (err : FanInCrash),
    validateFromArgs i (some e0) l = .error err →
    (err = .nilDereference ∧ ∃ k, l.get? k = some none) ∨
    (∃ k t, l.get? k = some (some t) ∧
      ((err = .descriptive (.notAChannel (i + k) t.kind) ∧ t.kind ≠ GoKind.chanKind) ∨
       (∃ e, err = .descriptive (.noReceive (i + k) ChanDir.sendDir) ∧
         t = .chanType .sendDir e) ∨
       (∃ d e, err = .descriptive (.typeMismatch (i + k) e e0) ∧
         t = .chanType d e ∧ e ≠ e0))) := by
  induction l with
  | nil => intro i e0 err h; simp [validateFromArgs] at h
  | cons a rest ih =>
      intro i e0 err h
      rw [validateFromArgs] at h
      cases a with
      | none =>
          obtain rfl : FanInCrash.nilDereference = err := Except.error.inj h
          exact Or.inl ⟨rfl, 0, rfl⟩
      | some t =>
          simp only [checkChannelArg] at h
          cases hc : checkChannel i (some e0) t with
          | error epanic =>
              rw [hc] at h
              obtain rfl : FanInCrash.descriptive epanic = err := Except.error.inj h
              refine Or.inr ⟨0, t, rfl, ?_⟩
              rcases checkChannel_error_cases i (some e0) t epanic hc with ⟨h1, h1k⟩ |
                ⟨e1, h2, h3⟩ | ⟨d1, e1, prev1, h4, h5, h6, h7⟩
              · exact Or.inl ⟨by rw [h1, Nat.add_zero], h1k⟩
              · exact Or.inr (Or.inl ⟨e1, by rw [h2, Nat.add_zero], h3⟩)
              · have hprev : prev1 = e0 := (Option.some.inj h6).symm
                subst hprev
                exact Or.inr (Or.inr ⟨d1, e1, by rw [h4, Nat.add_zero], h5, h7⟩)
          | ok et1 =>
              rw [hc] at h
              have h2 : validateFromArgs (i + 1) et1 rest = .error err := h
              obtain ⟨rfl, d, rfl, hd⟩ := checkChannel_some_ok i e0 t et1 hc
              rcases ih (i + 1) e0 err h2 with ⟨hnil, k, hk⟩ | ⟨k, u, hget, hcase⟩
              · exact Or.inl ⟨hnil, k + 1, by simpa using hk⟩
              · refine Or.inr ⟨k + 1, u, by simpa using hget, ?_⟩
                have harith : i + 1 + k = i + (k + 1) := by omega
                rw [harith] at hcase
                exact hcase

theorem validateFromArgs_cons_none (a : Option GoType) (rest : List (Option GoType))
    (hv : validateFromArgs 0 none (a :: rest) = .ok none) : False := by
  rw [validateFromArgs] at hv
  cases a with
  | none => exact Except.noConfusion hv
  | some t =>
      simp only [checkChannelArg] at hv
      cases hc : checkChannel 0 none t with
      | error e =>
          rw [hc] at hv
          exact Except.noConfusion hv
      | ok et1 =>
          rw [hc] at hv
          have hv2 : validateFromArgs 1 et1 rest = .ok none := hv
          obtain ⟨d0, e0, rfl, hd0, rfl⟩ := checkChannel_none_ok 0 t et1 hc
          obtain ⟨heq, -⟩ := (validateFromArgs_ok_some rest 1 e0 none).mp hv2
          exact Option.noConfusion heq

theorem validateFromArgs_top_error (a : Option GoType) (rest : List (Option GoType))
    (err : FanInCrash) (hv : validateFromArgs 0 none (a :: rest) = .error err) :
    argIdentifies (a :: rest) err ∨
      (err = .nilDereference ∧ ∃ j, (a :: rest).get? j = some none) := by
  rw [validateFromArgs] at hv
  cases a with
  | none =>
      obtain rfl : FanInCrash.nilDereference = err := Except.error.inj hv
      exact Or.inr ⟨rfl, 0, rfl⟩
  | some t0 =>
      simp only [checkChannelArg] at hv
      cases hc : checkChannel 0 none t0 with
      | error e1 =>
          rw [hc] at hv
          obtain rfl : FanInCrash.descriptive e1 = err := Except.error.inj hv
          left
          rcases checkChannel_error_cases 0 none t0 e1 hc with ⟨h1, h1k⟩ | ⟨e2, h2, h3⟩ |
            ⟨d2, e2, prev2, h4, h5, h6, h7⟩
          · rw [h1]; exact ⟨t0, rfl, rfl, h1k⟩
          · rw [h2]; exact ⟨⟨e2, by simp [h3]⟩, rfl⟩
          · exact Option.noConfusion h6
      | ok et1 =>
          rw [hc] at hv
          have hv2 : validateFromArgs 1 et1 rest = .error err := hv
          obtain ⟨d0, e0, rfl, hd0, rfl⟩ := checkChannel_none_ok 0 t0 et1 hc
          rcases validateFromArgs_error_some rest 1 e0 err hv2 with ⟨hnil, k, hk⟩ |
            ⟨k, u, hget, hcase⟩
          · exact Or.inr ⟨hnil, k + 1, by simpa using hk⟩
          · left
            have hts : (some (GoType.chanType d0 e0) :: rest).get? (1 + k) =
                some (some u) := by
              rw [Nat.add_comm]
              simpa using hget
            rcases hcase with ⟨h1, h1k⟩ | ⟨e2, h2, h3⟩ | ⟨d2, e2, h4, h5, h6⟩
            · rw [h1]; exact ⟨u, hts, rfl, h1k⟩
            · rw [h2]
              rw [h3] at hts
              exact ⟨⟨e2, hts⟩, rfl⟩
            · rw [h4]
              rw [h5] at hts
              exact ⟨⟨d2, hts⟩, ⟨d0, rfl⟩, h6⟩

/-- Counterexample to C4 as stated: the untyped nil interface, passed as the
only argument, is "not a channel", yet `FanIn` crashes with the runtime nil
dereference from `t.Kind()` on the nil `reflect.Type` (line 582) — a panic
that identifies no offending index and no reason — so it does not fail with
a descriptive condition identifying index and reason. -/
theorem FanIn_nil_argument_counterexample :
    badArgOpt [none] 0 ∧
    FanInArgs [none] = .error .nilDereference ∧
    ¬ ∃ err, FanInArgs [none] = .error err ∧ argIdentifies [none] err := by
  refine ⟨⟨none, rfl, Or.inl fun d e hne => Option.noConfusion hne⟩, rfl, ?_⟩
  rintro ⟨err, herr, hid⟩
  obtain rfl : FanInCrash.nilDereference = err := Except.error.inj herr
  exact hid

/-- C4 (amended): if the argument list is empty, or any argument at any
position is not a channel, is a send-only channel, or is a channel whose
element type differs from the first channel's element type, then `FanIn`
fails at setup and no setup is produced; the panic is a descriptive
condition identifying an offending index and reason, except when the failure
is the nil dereference caused by an untyped nil argument. -/
theorem FanInArgs_rejects_bad_arguments (ts : List (Option GoType))
    (h : ts = [] ∨ ∃ j, badArgOpt ts j) :
    ∃ err, FanInArgs ts = .error err ∧
      (argIdentifies ts err ∨
        (err = .nilDereference ∧ ∃ j, ts.get? j = some none)) := by
  cases hfi : FanInArgs ts with
  | error err =>
      refine ⟨err, rfl, ?_⟩
      cases ts with
      | nil =>
          obtain rfl : FanInCrash.descriptive .noChannels = err := Except.error.inj hfi
          exact Or.inl rfl
      | cons a rest =>
          rw [FanInArgs, validateChannelArgs_cons] at hfi
          cases hv : validateFromArgs 0 none (a :: rest) with
          | error e1 =>
              rw [hv] at hfi
              obtain rfl : e1 = err := by simpa using hfi
              exact validateFromArgs_top_error a rest _ hv
          | ok et =>
              rw [hv] at hfi
              cases et with
              | none => exact absurd hv (fun hcc => validateFromArgs_cons_none a rest hcc)
              | some e0 => exact Except.noConfusion hfi
  | ok s =>
      exfalso
      cases ts with
      | nil => exact Except.noConfusion hfi
      | cons a rest =>
          rw [FanInArgs, validateChannelArgs_cons] at hfi
          cases hv : validateFromArgs 0 none (a :: rest) with
          | error e1 => rw [hv] at hfi; exact Except.noConfusion hfi
          | ok et =>
              rw [hv] at hfi
              cases et with
              | none => exact validateFromArgs_cons_none a rest hv
              | some e0 =>
                  rw [validateFromArgs] at hv
                  cases a with
                  | none => exact Except.noConfusion hv
                  | some t0 =>
                      simp only [checkChannelArg] at hv
                      cases hc : checkChannel 0 none t0 with
                      | error e2 =>
                          rw [hc] at hv
                          exact Except.noConfusion hv
                      | ok et1 =>
                          rw [hc] at hv
                          have hv2 : validateFromArgs 1 et1 rest = .ok (some e0) := hv
                          obtain ⟨d0, e00, rfl, hd0, rfl⟩ := checkChannel_none_ok 0 t0 et1 hc
                          obtain ⟨hee, hall⟩ :=
                            (validateFromArgs_ok_some rest 1 e00 (some e0)).mp hv2
                          rcases h with h0 | ⟨j, hj⟩
                          · exact List.noConfusion h0
                          · obtain ⟨u, hget, hbadu⟩ := hj
                            have hu : ∃ d, u = some (GoType.chanType d e00) ∧
                                d ≠ ChanDir.sendDir := by
                              cases j with
                              | zero =>
                                  have h00 : (some (GoType.chanType d0 e00) :: rest).get? 0 =
                                      some (some (GoType.chanType d0 e00)) := rfl
                                  rw [hget] at h00
                                  exact ⟨d0, Option.some.inj h00, hd0⟩
                              | succ k =>
                                  exact hall u (List.get?_mem (by simpa using hget))
                            obtain ⟨d, rfl, hd⟩ := hu
                            rcases hbadu with h1 | ⟨e2, h2⟩ | ⟨d2, e2, d02, e02, h3, h4, h5⟩
                            · exact h1 d e00 rfl
                            · have h2a := Option.some.inj h2
                              injection h2a with hdir helem
                              exact hd hdir
                            · have h00 : (some (GoType.chanType d0 e00) :: rest).get? 0 =
                                  some (some (GoType.chanType d0 e00)) := rfl
                              rw [h4] at h00
                              have h00a := Option.some.inj (Option.some.inj h00)
                              injection h00a with hdd hee2
                              have h3a := Option.some.inj h3
                              injection h3a with hdd2 hee3
                              exact h5 (hee3.symm.trans hee2.symm)

/-- Witness for C4 (amended): the untyped nil argument makes `FanIn` fail
with the non-descriptive nil dereference. -/
theorem FanInArgs_rejects_bad_arguments_witness :
    (([none] : List (Option GoType)) = [] ∨ ∃ j, badArgOpt [none] j) ∧
      ∃ err, FanInArgs [none] = .error err ∧
        (argIdentifies [none] err ∨
          (err = .nilDereference ∧
            ∃ j, ([none] : List (Option GoType)).get? j = some none)) := by
  have hb : (([none] : List (Option GoType)) = [] ∨ ∃ j, badArgOpt [none] j) :=
    Or.inr ⟨0, none, rfl, Or.inl fun d e hne => Option.noConfusion hne⟩
  exact ⟨hb, FanInArgs_rejects_bad_arguments [none] hb⟩

/-! ## Operational model of a running merge (`fan-in.go` lines 600-628)

A merge over `n` validated sources is modelled as a state machine driven by
an explicit schedule of atomic actions. One worker goroutine runs per source
(lines 604-621), looping on its forwarding step; the `select` inside a step
nondeterministically takes the done case (when the done channel is closed)
or the input case (when the source has a pending element, or is closed), so
the model exposes both as separate scheduler choices. The `sync.WaitGroup`
counter starts at the number of channels (line 601) and each worker
decrements it once on exit (line 614); the coordinating goroutine closes the
output once the counter reaches zero (lines 622-626). The caller is modelled
as always draining the zero-capacity output, so a forwarded element goes
directly to the delivery log (tagged with its source index, as ghost
information for stating ordering). -/

structure MergeState (E : Type) where
  sources : List (ChanState E)
  running : List Bool
  counter : Nat
  doneFired : Bool
  outLog : List (Nat × E)
  outClosed : Bool
  deriving DecidableEq, Repr

/-- The atomic actions a scheduler can perform on a merge state. -/
inductive MergeAction where
  | fireDone
  | workerDone (i : Nat)
  | workerRecv (i : Nat)
  | closeOutput
  deriving DecidableEq, Repr

/-- The state right after a successful `FanIn` call: all workers running, the
completion counter at the number of sources, the output open and empty, and
the done channel not yet fired. -/
def initState {E : Type} (srcs : List (ChanState E)) : MergeState E :=
  { sources := srcs
    running := List.replicate srcs.length true
    counter := srcs.length
    doneFired := false
    outLog := []
    outClosed := false }

/-- One atomic action applied to a merge state; actions whose enabling
condition fails (a select case that is not ready, a stopped worker, a
counter still positive) leave the state unchanged.

* `fireDone` — the caller closes the done channel.
* `workerDone i` — worker `i`, at its select, takes the done case (enabled
  once the done channel is fired) and exits its loop, decrementing the
  completion counter.
* `workerRecv i` — worker `i` takes the input case of its select: if the
  source has a pending element it is received and sent on the output (the
  caller reads it immediately); if the source is closed and drained the
  worker observes `more = false` and exits, decrementing the counter; an
  open empty source means the case is not ready.
* `closeOutput` — the coordinating goroutine returns from `wg.Wait()` (the
  counter is zero) and closes the output channel. -/
def mergeStep {E : Type} (s : MergeState E) : MergeAction → MergeState E
  | .fireDone => { s with doneFired := true }
  | .workerDone i =>
      if s.doneFired && s.running.getD i false then
        { s with running := s.running.set i false, counter := s.counter - 1 }
      else s
  | .workerRecv i =>
      if s.running.getD i false then
        match s.sources.get? i with
        | some src =>
            match src.pending with
            | e :: rest =>
                { s with sources := s.sources.set i { pending := rest, closed := src.closed }
                         outLog := s.outLog ++ [(i, e)] }
            | [] =>
                if src.closed then
                  { s with running := s.running.set i false, counter := s.counter - 1 }
                else s
        | none => s
      else s
  | .closeOutput =>
      if s.counter == 0 && !s.outClosed then { s with outClosed := true } else s

/-- A whole scheduled execution: the actions applied in order. -/
def mergeRun {E : Type} (s : MergeState E) (sched : List MergeAction) : MergeState E :=
  sched.foldl mergeStep s

/-- The elements of the delivery log that originated from source `i`, in
delivery order. -/
def projOut {E : Type} (l : List (Nat × E)) (i : Nat) : List E :=
  l.filterMap (fun p => if p.1 = i then some p.2 else none)

/-- The pending elements of source `i` in a source list (empty when out of
range). -/
def sourceList {E : Type} (srcs : List (ChanState E)) (i : Nat) : List E :=
  match srcs.get? i with
  | some c => c.pending
  | none => []

/-- The caller's view of the merged output channel once it has drained all
delivered elements: nothing pending, closed according to the merge state. -/
def drainedOutput {E : Type} (s : MergeState E) : ChanState E :=
  { pending := [], closed := s.outClosed }

theorem mergeStep_fireDone {E : Type} (s : MergeState E) :
    mergeStep s .fireDone = { s with doneFired := true } := rfl

theorem mergeStep_workerDone_cases {E : Type} (s : MergeState E) (i : Nat) :
    mergeStep s (.workerDone i) = s ∨
    (s.doneFired = true ∧ s.running.getD i false = true ∧
      mergeStep s (.workerDone i) =
        { s with running := s.running.set i false, counter := s.counter - 1 }) := by
  by_cases h1 : s.doneFired = true
  · by_cases h2 : s.running.getD i false = true
    · refine Or.inr ⟨h1, h2, ?_⟩
      have h2a : s.running[i]?.getD false = true := by
        rw [← List.getD_eq_getElem?_getD]; exact h2
      simp [mergeStep, h1, h2a]
    · left
      have h2a : s.running[i]?.getD false = false := by
        rw [← List.getD_eq_getElem?_getD]; simpa using h2
      simp [mergeStep, h2a]
  · left
    have h1a : s.doneFired = false := by simpa using h1
    simp [mergeStep, h1a]

theorem mergeStep_workerRecv_cases {E : Type} (s : MergeState E) (i : Nat) :
    mergeStep s (.workerRecv i) = s ∨
    (∃ src e rest, s.running.getD i false = true ∧ s.sources.get? i = some src ∧
      src.pending = e :: rest ∧
      mergeStep s (.workerRecv i) =
        { s with sources := s.sources.set i { pending := rest, closed := src.closed },
                 outLog := s.outLog ++ [(i, e)] }) ∨
    (∃ src, s.running.getD i false = true ∧ s.sources.get? i = some src ∧
      src.pending = [] ∧ src.closed = true ∧
      mergeStep s (.workerRecv i) =
        { s with running := s.running.set i false, counter := s.counter - 1 }) := by
  by_cases hr : s.running.getD i false = true
  · have hra : s.running[i]?.getD false = true := by
      rw [← List.getD_eq_getElem?_getD]; exact hr
    cases hg : s.sources.get? i with
    | none =>
        have hga : s.sources[i]? = none := by rw [← List.get?_eq_getElem?]; exact hg
        exact Or.inl (by simp [mergeStep, hra, hga])
    | some src =>
        have hga : s.sources[i]? = some src := by rw [← List.get?_eq_getElem?]; exact hg
        cases hp : src.pending with
        | cons e rest =>
            exact Or.inr (Or.inl ⟨src, e, rest, hr, rfl, hp,
              by simp [mergeStep, hra, hga, hp]⟩)
        | nil =>
            cases hc : src.closed with
            | true =>
                exact Or.inr (Or.inr ⟨src, hr, rfl, hp, hc,
                  by simp [mergeStep, hra, hga, hp, hc]⟩)
            | false => exact Or.inl (by simp [mergeStep, hra, hga, hp, hc])
  · left
    have hra : s.running[i]?.getD false = false := by
      rw [← List.getD_eq_getElem?_getD]; simpa using hr
    simp [mergeStep, hra]

theorem mergeStep_closeOutput_cases {E : Type} (s : MergeState E) :
    mergeStep s .closeOutput = s ∨
    (s.counter = 0 ∧ s.outClosed = false ∧
      mergeStep s .closeOutput = { s with outClosed := true }) := by
  by_cases h1 : s.counter = 0
  · by_cases h2 : s.outClosed = true
    · exact Or.inl (by simp [mergeStep, h1, h2])
    · have h2a : s.outClosed = false := by simpa using h2
      exact Or.inr ⟨h1, h2a, by simp [mergeStep, h1, h2a]⟩
  · exact Or.inl (by simp [mergeStep, h1])

theorem getD_true_lt {l : List Bool} {i : Nat} (h : l.getD i false = true) :
    i < l.length := by
  by_contra hlt
  rw [List.getD_eq_getElem?_getD, List.getElem?_eq_none (Nat.le_of_not_lt hlt)] at h
  simp at h

theorem getD_true_get {l : List Bool} {i : Nat} (h : l.getD i false = true) :
    l.get? i = some true := by
  have hlt := getD_true_lt h
  rw [List.getD_eq_getElem?_getD, List.getElem?_eq_getElem hlt] at h
  rw [List.get?_eq_getElem?, List.getElem?_eq_getElem hlt]
  simp at h
  rw [h]

theorem count_true_set_false {l : List Bool} {i : Nat} (h : l.getD i false = true) :
    (l.set i false).count true = l.count true - 1 := by
  have hlt := getD_true_lt h
  have hgi : l[i] = true := by
    have h2 := getD_true_get h
    rw [List.get?_eq_getElem?, List.getElem?_eq_getElem hlt] at h2
    exact Option.some.inj h2
  rw [List.count_set false true l i hlt]
  simp [hgi]

theorem count_true_pos {l : List Bool} {i : Nat} (h : l.getD i false = true) :
    0 < l.count true :=
  List.count_pos_iff_mem.mpr (List.get?_mem (getD_true_get h))

theorem count_true_zero {l : List Bool} (h : ∀ i, l.getD i false = false) :
    l.count true = 0 := by
  induction l with
  | nil => rfl
  | cons b t ih =>
      have hb : b = false := h 0
      subst hb
      rw [List.count_cons, ih fun i => h (i + 1)]
      rfl

theorem getD_set_bool_self {l : List Bool} {i : Nat} (b : Bool) (h : i < l.length) :
    (l.set i b).getD i false = b := by
  rw [List.getD_eq_getElem?_getD, List.getElem?_set_self (by simpa using h)]
  rfl

theorem getD_set_bool_ne (l : List Bool) {i j : Nat} (b : Bool) (h : i ≠ j) :
    (l.set i b).getD j false = l.getD j false := by
  rw [List.getD_eq_getElem?_getD, List.getD_eq_getElem?_getD, List.getElem?_set_ne h]

theorem projOut_append_tag {E : Type} (l : List (Nat × E)) (i : Nat) (e : E) :
    projOut (l ++ [(i, e)]) i = projOut l i ++ [e] := by
  simp [projOut, List.filterMap_append]

theorem projOut_append_ne {E : Type} (l : List (Nat × E)) {i j : Nat} (e : E) (h : i ≠ j) :
    projOut (l ++ [(i, e)]) j = projOut l j := by
  simp [projOut, List.filterMap_append, h]

theorem sourceList_set_self {E : Type} (srcs : List (ChanState E)) {i : Nat} (c : ChanState E)
    (h : i < srcs.length) : sourceList (srcs.set i c) i = c.pending := by
  unfold sourceList
  rw [List.get?_set_eq_of_lt c h]

theorem sourceList_set_ne {E : Type} (srcs : List (ChanState E)) {i j : Nat} (c : ChanState E)
    (h : i ≠ j) : sourceList (srcs.set i c) j = sourceList srcs j := by
  unfold sourceList
  rw [List.get?_set_ne c srcs h]

/-- The inductive invariant of the merge state machine, relative to the
initial source states `srcs`: lengths are stable; the `WaitGroup` counter
equals the number of running workers; the engine never changes the closed
flag of any source; what was delivered from source `i` followed by what the
source still holds is exactly what the source held initially (so per-source
order is preserved and nothing is lost or invented); delivery tags are in
range; the output is closed only with the counter at zero; and a stopped
worker stopped because cancellation fired or because its source was drained
and closed. -/
structure MergeInv {E : Type} (srcs : List (ChanState E)) (s : MergeState E) : Prop where
  lenSources : s.sources.length = srcs.length
  lenRunning : s.running.length = srcs.length
  counterEq : s.counter = s.running.count true
  closedPres : ∀ i, (s.sources.get? i).map ChanState.closed = (srcs.get? i).map ChanState.closed
  history : ∀ i, projOut s.outLog i ++ sourceList s.sources i = sourceList srcs i
  tags : ∀ p ∈ s.outLog, p.1 < srcs.length
  closedCounter : s.outClosed = true → s.counter = 0
  stoppedReason : ∀ i, i < srcs.length → s.running.getD i false = false →
      s.doneFired = true ∨ (sourceList s.sources i = [] ∧
        (s.sources.get? i).map ChanState.closed = some true)

theorem mergeInv_init {E : Type} (srcs : List (ChanState E)) :
    MergeInv srcs (initState srcs) := by
  refine ⟨rfl, List.length_replicate _ _, (List.count_replicate_self _ _).symm,
    fun i => rfl, fun i => rfl, ?_, ?_, ?_⟩
  · intro p hp
    simp [initState] at hp
  · intro h
    simp [initState] at h
  · intro i hi hstop
    have hrep : (List.replicate srcs.length true).getD i false = true := by
      rw [List.getD_eq_getElem?_getD, List.getElem?_replicate, if_pos hi]
      rfl
    have hstop2 : (List.replicate srcs.length true).getD i false = false := hstop
    rw [hrep] at hstop2
    exact Bool.noConfusion hstop2

theorem mergeInv_step {E : Type} {srcs : List (ChanState E)} {s : MergeState E}
    (hinv : MergeInv srcs s) (a : MergeAction) : MergeInv srcs (mergeStep s a) := by
  cases a with
  | fireDone =>
      rw [mergeStep_fireDone]
      exact ⟨hinv.lenSources, hinv.lenRunning, hinv.counterEq, hinv.closedPres,
        hinv.history, hinv.tags, hinv.closedCounter, fun i hi hs => Or.inl rfl⟩
  | workerDone i =>
      rcases mergeStep_workerDone_cases s i with heq | ⟨hdf, hrun, heq⟩
      · rw [heq]; exact hinv
      · rw [heq]
        refine ⟨hinv.lenSources, ?_, ?_, hinv.closedPres, hinv.history, hinv.tags, ?_, ?_⟩
        · show (s.running.set i false).length = srcs.length
          rw [List.length_set]; exact hinv.lenRunning
        · show s.counter - 1 = (s.running.set i false).count true
          rw [count_true_set_false hrun, hinv.counterEq]
        · intro hoc
          exfalso
          have hoc2 : s.outClosed = true := hoc
          have h0 := hinv.closedCounter hoc2
          have hpos := count_true_pos hrun
          rw [hinv.counterEq] at h0
          omega
        · intro j hj hstop
          exact Or.inl hdf
  | workerRecv i =>
      rcases mergeStep_workerRecv_cases s i with heq | ⟨src, e, rest, hrun, hget, hpend, heq⟩ |
        ⟨src, hrun, hget, hpend, hclosed, heq⟩
      · rw [heq]; exact hinv
      · rw [heq]
        have hiltS : i < s.sources.length := by
          by_contra hlt
          rw [List.get?_eq_getElem?, List.getElem?_eq_none (Nat.le_of_not_lt hlt)] at hget
          exact Option.noConfusion hget
        have hiltN : i < srcs.length := hinv.lenSources ▸ hiltS
        have hslist : sourceList s.sources i = src.pending := by
          unfold sourceList; rw [hget]
        refine ⟨?_, hinv.lenRunning, hinv.counterEq, ?_, ?_, ?_, hinv.closedCounter, ?_⟩
        · show (s.sources.set i { pending := rest, closed := src.closed }).length = srcs.length
          rw [List.length_set]; exact hinv.lenSources
        · intro j
          show ((s.sources.set i { pending := rest, closed := src.closed }).get? j).map
              ChanState.closed = (srcs.get? j).map ChanState.closed
          by_cases hij : i = j
          · subst hij
            rw [List.get?_set_eq_of_lt _ hiltS]
            have hcp := hinv.closedPres i
            rw [hget] at hcp
            simpa using hcp
          · rw [List.get?_set_ne _ _ hij]
            exact hinv.closedPres j
        · intro j
          show projOut (s.outLog ++ [(i, e)]) j ++
              sourceList (s.sources.set i { pending := rest, closed := src.closed }) j =
              sourceList srcs j
          by_cases hij : i = j
          · subst hij
            rw [projOut_append_tag, sourceList_set_self _ _ hiltS]
            have hh := hinv.history i
            rw [hslist, hpend] at hh
            rw [List.append_assoc, List.singleton_append]
            exact hh
          · rw [projOut_append_ne _ _ hij, sourceList_set_ne _ _ hij]
            exact hinv.history j
        · intro p hp
          show p.1 < srcs.length
          rcases List.mem_append.mp hp with h1 | h2
          · exact hinv.tags p h1
          · have hpe : p = (i, e) := by simpa using h2
            rw [hpe]; exact hiltN
        · intro j hj hstop
          have hstop2 : s.running.getD j false = false := hstop
          by_cases hij : i = j
          · subst hij
            rw [hstop2] at hrun
            exact Bool.noConfusion hrun
          · rcases hinv.stoppedReason j hj hstop2 with hd | ⟨hsl, hcl⟩
            · exact Or.inl hd
            · refine Or.inr ⟨?_, ?_⟩
              · show sourceList (s.sources.set i { pending := rest, closed := src.closed }) j = []
                rw [sourceList_set_ne _ _ hij]; exact hsl
              · show ((s.sources.set i { pending := rest, closed := src.closed }).get? j).map
                    ChanState.closed = some true
                rw [List.get?_set_ne _ _ hij]; exact hcl
      · rw [heq]
        refine ⟨hinv.lenSources, ?_, ?_, hinv.closedPres, hinv.history, hinv.tags, ?_, ?_⟩
        · show (s.running.set i false).length = srcs.length
          rw [List.length_set]; exact hinv.lenRunning
        · show s.counter - 1 = (s.running.set i false).count true
          rw [count_true_set_false hrun, hinv.counterEq]
        · intro hoc
          exfalso
          have hoc2 : s.outClosed = true := hoc
          have h0 := hinv.closedCounter hoc2
          have hpos := count_true_pos hrun
          rw [hinv.counterEq] at h0
          omega
        · intro j hj hstop
          have hstop2 : (s.running.set i false).getD j false = false := hstop
          by_cases hij : i = j
          · subst hij
            refine Or.inr ⟨?_, ?_⟩
            · show sourceList s.sources i = []
              unfold sourceList
              rw [hget]
              exact hpend
            · show (s.sources.get? i).map ChanState.closed = some true
              rw [hget]
              simp [hclosed]
          · rw [getD_set_bool_ne s.running false hij] at hstop2
            rcases hinv.stoppedReason j hj hstop2 with hd | hres
            · exact Or.inl hd
            · exact Or.inr hres
  | closeOutput =>
      rcases mergeStep_closeOutput_cases s with heq | ⟨hc0, hoc, heq⟩
      · rw [heq]; exact hinv
      · rw [heq]
        refine ⟨hinv.lenSources, hinv.lenRunning, hinv.counterEq, hinv.closedPres,
          hinv.history, hinv.tags, ?_, ?_⟩
        · intro _; exact hc0
        · intro j hj hstop
          exact hinv.stoppedReason j hj hstop

theorem mergeRun_nil {E : Type} (s : MergeState E) : mergeRun s [] = s := rfl

theorem mergeRun_cons {E : Type} (s : MergeState E) (a : MergeAction)
    (rest : List MergeAction) : mergeRun s (a :: rest) = mergeRun (mergeStep s a) rest := rfl

theorem mergeRun_append {E : Type} (s : MergeState E) (l1 l2 : List MergeAction) :
    mergeRun s (l1 ++ l2) = mergeRun (mergeRun s l1) l2 := by
  simp [mergeRun, List.foldl_append]

theorem mergeInv_run {E : Type} {srcs : List (ChanState E)} {s : MergeState E}
    (hinv : MergeInv srcs s) (sched : List MergeAction) :
    MergeInv srcs (mergeRun s sched) := by
  induction sched generalizing s with
  | nil => exact hinv
  | cons a rest ih => exact ih (mergeInv_step hinv a)

theorem mergeStep_doneFired_true {E : Type} (s : MergeState E) (a : MergeAction)
    (h : s.doneFired = true) : (mergeStep s a).doneFired = true := by
  cases a with
  | fireDone => rfl
  | workerDone i =>
      rcases mergeStep_workerDone_cases s i with heq | ⟨-, -, heq⟩ <;> rw [heq] <;> exact h
  | workerRecv i =>
      rcases mergeStep_workerRecv_cases s i with heq | ⟨src, e, rest, -, -, -, heq⟩ |
        ⟨src, -, -, -, -, heq⟩ <;> rw [heq] <;> exact h
  | closeOutput =>
      rcases mergeStep_closeOutput_cases s with heq | ⟨-, -, heq⟩ <;> rw [heq] <;> exact h

theorem mergeStep_doneFired_of_ne {E : Type} (s : MergeState E) (a : MergeAction)
    (h : a ≠ .fireDone) : (mergeStep s a).doneFired = s.doneFired := by
  cases a with
  | fireDone => exact absurd rfl h
  | workerDone i =>
      rcases mergeStep_workerDone_cases s i with heq | ⟨-, -, heq⟩ <;> rw [heq]
  | workerRecv i =>
      rcases mergeStep_workerRecv_cases s i with heq | ⟨src, e, rest, -, -, -, heq⟩ |
        ⟨src, -, -, -, -, heq⟩ <;> rw [heq]
  | closeOutput =>
      rcases mergeStep_closeOutput_cases s with heq | ⟨-, -, heq⟩ <;> rw [heq]

theorem mergeRun_doneFired_of_not_mem {E : Type} (s : MergeState E)
    (sched : List MergeAction) (h : MergeAction.fireDone ∉ sched) :
    (mergeRun s sched).doneFired = s.doneFired := by
  induction sched generalizing s with
  | nil => rfl
  | cons a rest ih =>
      have ha : a ≠ .fireDone := fun hh => h (hh ▸ List.mem_cons_self a rest)
      have hrest : MergeAction.fireDone ∉ rest := fun hh => h (List.mem_cons_of_mem a hh)
      show (mergeRun (mergeStep s a) rest).doneFired = s.doneFired
      rw [ih _ hrest, mergeStep_doneFired_of_ne s a ha]

theorem mergeStep_outClosed_true {E : Type} (s : MergeState E) (a : MergeAction)
    (h : s.outClosed = true) : (mergeStep s a).outClosed = true := by
  cases a with
  | fireDone => exact h
  | workerDone i =>
      rcases mergeStep_workerDone_cases s i with heq | ⟨-, -, heq⟩ <;> rw [heq] <;> exact h
  | workerRecv i =>
      rcases mergeStep_workerRecv_cases s i with heq | ⟨src, e, rest, -, -, -, heq⟩ |
        ⟨src, -, -, -, -, heq⟩ <;> rw [heq] <;> exact h
  | closeOutput =>
      rcases mergeStep_closeOutput_cases s with heq | ⟨-, hoc, heq⟩
      · rw [heq]; exact h
      · rw [heq]

theorem mergeRun_outClosed_true {E : Type} (s : MergeState E) (sched : List MergeAction)
    (h : s.outClosed = true) : (mergeRun s sched).outClosed = true := by
  induction sched generalizing s with
  | nil => exact h
  | cons a rest ih => exact ih _ (mergeStep_outClosed_true s a h)

theorem mergeStep_frozen {E : Type} (s : MergeState E) (a : MergeAction)
    (hstop : ∀ i, s.running.getD i false = false) (hoc : s.outClosed = true) :
    (mergeStep s a).outLog = s.outLog ∧ (mergeStep s a).outClosed = true ∧
    (mergeStep s a).running = s.running := by
  cases a with
  | fireDone => exact ⟨rfl, hoc, rfl⟩
  | workerDone i =>
      rcases mergeStep_workerDone_cases s i with heq | ⟨-, hrun, heq⟩
      · rw [heq]; exact ⟨rfl, hoc, rfl⟩
      · rw [hstop i] at hrun; exact Bool.noConfusion hrun
  | workerRecv i =>
      rcases mergeStep_workerRecv_cases s i with heq | ⟨src, e, rest, hrun, -, -, heq⟩ |
        ⟨src, hrun, -, -, -, heq⟩
      · rw [heq]; exact ⟨rfl, hoc, rfl⟩
      · rw [hstop i] at hrun; exact Bool.noConfusion hrun
      · rw [hstop i] at hrun; exact Bool.noConfusion hrun
  | closeOutput =>
      rcases mergeStep_closeOutput_cases s with heq | ⟨-, hocf, heq⟩
      · rw [heq]; exact ⟨rfl, hoc, rfl⟩
      · rw [hoc] at hocf; exact Bool.noConfusion hocf

theorem mergeRun_frozen {E : Type} (s : MergeState E) (sched : List MergeAction)
    (hstop : ∀ i, s.running.getD i false = false) (hoc : s.outClosed = true) :
    (mergeRun s sched).outLog = s.outLog ∧ (mergeRun s sched).outClosed = true := by
  induction sched generalizing s with
  | nil => exact ⟨rfl, hoc⟩
  | cons a rest ih =>
      obtain ⟨hl, hc, hr⟩ := mergeStep_frozen s a hstop hoc
      have hnext := ih (mergeStep s a) (fun i => by rw [hr]; exact hstop i) hc
      exact ⟨hnext.1.trans hl, hnext.2⟩

/-- The number of times the output channel transitions from open to closed
along a scheduled execution. -/
def closeCount {E : Type} (s : MergeState E) : List MergeAction → Nat
  | [] => 0
  | a :: rest =>
      (if (mergeStep s a).outClosed && !s.outClosed then 1 else 0) +
        closeCount (mergeStep s a) rest

theorem closeCount_closed {E : Type} (s : MergeState E) (sched : List MergeAction)
    (h : s.outClosed = true) : closeCount s sched = 0 := by
  induction sched generalizing s with
  | nil => rfl
  | cons a rest ih =>
      have hstep := mergeStep_outClosed_true s a h
      simp [closeCount, h, hstep, ih _ hstep]

theorem closeCount_spec {E : Type} (sched : List MergeAction) :
    ∀ s : MergeState E, s.outClosed = false →
    closeCount s sched = (if (mergeRun s sched).outClosed = true then 1 else 0) := by
  induction sched with
  | nil => intro s h; simp [closeCount, mergeRun_nil, h]
  | cons a rest ih =>
      intro s h
      cases hc : (mergeStep s a).outClosed with
      | true =>
          have h1 : closeCount (mergeStep s a) rest = 0 := closeCount_closed _ rest hc
          have h2 : (mergeRun (mergeStep s a) rest).outClosed = true :=
            mergeRun_outClosed_true _ rest hc
          simp [closeCount, mergeRun_cons, h, hc, h1, h2]
      | false =>
          have hrec := ih (mergeStep s a) hc
          simp [closeCount, mergeRun_cons, hc, hrec]

theorem getD_false_of_count_zero {l : List Bool} (h : l.count true = 0) :
    ∀ i, l.getD i false = false := by
  induction l with
  | nil => intro i; rfl
  | cons b t ih =>
      rw [List.count_cons] at h
      have hb : b = false := by
        cases b
        · rfl
        · simp at h
      subst hb
      simp at h
      intro i
      cases i with
      | zero => rfl
      | succ k => exact ih h k

theorem workerDone_preserves_false {E : Type} (s : MergeState E) (i j : Nat)
    (h : s.running.getD j false = false) :
    (mergeStep s (.workerDone i)).running.getD j false = false := by
  rcases mergeStep_workerDone_cases s i with heq | ⟨-, hrun, heq⟩
  · rw [heq]; exact h
  · rw [heq]
    show (s.running.set i false).getD j false = false
    by_cases hij : i = j
    · subst hij
      exact getD_set_bool_self false (getD_true_lt hrun)
    · rw [getD_set_bool_ne _ _ hij]; exact h

theorem workerDone_stops {E : Type} (s : MergeState E) (i : Nat) (hd : s.doneFired = true) :
    (mergeStep s (.workerDone i)).running.getD i false = false := by
  by_cases hrun : s.running.getD i false = true
  · have h2a : s.running[i]?.getD false = true := by
      rw [← List.getD_eq_getElem?_getD]; exact hrun
    have heq : mergeStep s (.workerDone i) =
        { s with running := s.running.set i false, counter := s.counter - 1 } := by
      simp [mergeStep, hd, h2a]
    rw [heq]
    show (s.running.set i false).getD i false = false
    exact getD_set_bool_self false (getD_true_lt hrun)
  · have hrun2 : s.running.getD i false = false := by simpa using hrun
    exact workerDone_preserves_false s i i hrun2

theorem sweep_stops_all {E : Type} (l : List Nat) : ∀ s : MergeState E, s.doneFired = true →
    ∀ j, (j ∈ l ∨ s.running.getD j false = false) →
      (mergeRun s (l.map MergeAction.workerDone)).running.getD j false = false := by
  induction l with
  | nil =>
      intro s hd j hj
      rcases hj with h | h
      · exact absurd h (List.not_mem_nil j)
      · exact h
  | cons a t ih =>
      intro s hd j hj
      show (mergeRun (mergeStep s (.workerDone a))
        (t.map MergeAction.workerDone)).running.getD j false = false
      have hd2 : (mergeStep s (.workerDone a)).doneFired = true :=
        mergeStep_doneFired_true s _ hd
      apply ih _ hd2 j
      rcases hj with hmem | hfalse
      · rcases List.mem_cons.mp hmem with h1 | h2
        · subst h1
          exact Or.inr (workerDone_stops s j hd)
        · exact Or.inl h2
      · exact Or.inr (workerDone_preserves_false s a j hfalse)

/-- The schedule that stops every worker via the fired done channel and then
lets the coordinator close the output. -/
def stopAll (n : Nat) : List MergeAction :=
  (List.range n).map MergeAction.workerDone ++ [.closeOutput]

theorem stopAll_closes {E : Type} (srcs : List (ChanState E)) (s : MergeState E)
    (hinv : MergeInv srcs s) (hd : s.doneFired = true) :
    (mergeRun s (stopAll srcs.length)).outClosed = true := by
  have hsweep : ∀ j, (mergeRun s
      ((List.range srcs.length).map MergeAction.workerDone)).running.getD j false = false := by
    intro j
    apply sweep_stops_all _ s hd j
    by_cases hj : j < srcs.length
    · exact Or.inl (List.mem_range.mpr hj)
    · refine Or.inr ?_
      have hlen : s.running.length ≤ j := by rw [hinv.lenRunning]; omega
      rw [List.getD_eq_getElem?_getD, List.getElem?_eq_none hlen]
      rfl
  have hinv2 : MergeInv srcs
      (mergeRun s ((List.range srcs.length).map MergeAction.workerDone)) :=
    mergeInv_run hinv _
  have hc0 : (mergeRun s ((List.range srcs.length).map MergeAction.workerDone)).counter = 0 := by
    rw [hinv2.counterEq]
    exact count_true_zero hsweep
  show (mergeRun s ((List.range srcs.length).map MergeAction.workerDone ++
    [MergeAction.closeOutput])).outClosed = true
  rw [mergeRun_append]
  show (mergeStep (mergeRun s ((List.range srcs.length).map MergeAction.workerDone))
    .closeOutput).outClosed = true
  cases hoc : (mergeRun s ((List.range srcs.length).map MergeAction.workerDone)).outClosed with
  | true => exact mergeStep_outClosed_true _ _ hoc
  | false =>
      have heq : mergeStep (mergeRun s ((List.range srcs.length).map MergeAction.workerDone))
          .closeOutput = { mergeRun s ((List.range srcs.length).map MergeAction.workerDone)
            with outClosed := true } := by
        simp [mergeStep, hc0, hoc]
      rw [heq]

theorem multiset_proj_sum {E : Type} (l : List (Nat × E)) (n : Nat)
    (h : ∀ p ∈ l, p.1 < n) :
    ((l.map Prod.snd : List E) : Multiset E) =
      ∑ i ∈ Finset.range n, ((projOut l i : List E) : Multiset E) := by
  induction l with
  | nil => simp [projOut]
  | cons p t ih =>
      have hp : p.1 < n := h p (List.mem_cons_self p t)
      have ht : ∀ q ∈ t, q.1 < n := fun q hq => h q (List.mem_cons_of_mem p hq)
      have hproj : ∀ i, ((projOut (p :: t) i : List E) : Multiset E) =
          (if p.1 = i then ({p.2} : Multiset E) else 0) + ((projOut t i : List E) : Multiset E) := by
        intro i
        by_cases hpi : p.1 = i
        · simp [projOut, hpi]
        · simp [projOut, hpi]
      calc (((p :: t).map Prod.snd : List E) : Multiset E)
          = {p.2} + ((t.map Prod.snd : List E) : Multiset E) := by simp
        _ = {p.2} + ∑ i ∈ Finset.range n, ((projOut t i : List E) : Multiset E) := by
              rw [ih ht]
        _ = (∑ i ∈ Finset.range n, if p.1 = i then ({p.2} : Multiset E) else 0) +
            ∑ i ∈ Finset.range n, ((projOut t i : List E) : Multiset E) := by
              rw [Finset.sum_ite_eq (Finset.range n) p.1 (fun _ => ({p.2} : Multiset E)),
                if_pos (Finset.mem_range.mpr hp)]
        _ = ∑ i ∈ Finset.range n, ((if p.1 = i then ({p.2} : Multiset E) else 0) +
            ((projOut t i : List E) : Multiset E)) := by
              rw [Finset.sum_add_distrib]
        _ = ∑ i ∈ Finset.range n, ((projOut (p :: t) i : List E) : Multiset E) :=
              Finset.sum_congr rfl fun i _ => (hproj i).symm

/-- C1: for a merge of validated sources that each emit finitely many
elements and then close, with cancellation never fired: whenever a scheduled
execution reaches the closed output, the multiset of drained elements is the
sum of the sources' emitted multisets, each source's elements appear in the
output in their original relative order, and a read after the drain reports
the terminal closed state. -/
theorem merge_drain_multiset_order {E : Type} (srcs : List (ChanState E))
    (sched : List MergeAction)
    (hall : ∀ c ∈ srcs, c.closed = true)
    (hnof : MergeAction.fireDone ∉ sched)
    (hclosed : (mergeRun (initState srcs) sched).outClosed = true) :
    (((mergeRun (initState srcs) sched).outLog.map Prod.snd : List E) : Multiset E) =
      ∑ i ∈ Finset.range srcs.length, ((sourceList srcs i : List E) : Multiset E) ∧
    (∀ i, i < srcs.length →
      projOut (mergeRun (initState srcs) sched).outLog i = sourceList srcs i) ∧
    recvObserve (drainedOutput (mergeRun (initState srcs) sched)) =
      RecvOutcome.closedEmpty := by
  have hinv := mergeInv_run (mergeInv_init srcs) sched
  have hdone : (mergeRun (initState srcs) sched).doneFired = false := by
    rw [mergeRun_doneFired_of_not_mem _ _ hnof]
    rfl
  have hcnt : (mergeRun (initState srcs) sched).counter = 0 := hinv.closedCounter hclosed
  have hstopped : ∀ i, (mergeRun (initState srcs) sched).running.getD i false = false := by
    apply getD_false_of_count_zero
    rw [← hinv.counterEq]
    exact hcnt
  have hdrained : ∀ i, i < srcs.length →
      sourceList (mergeRun (initState srcs) sched).sources i = [] := by
    intro i hi
    rcases hinv.stoppedReason i hi (hstopped i) with hd | ⟨hsl, -⟩
    · rw [hdone] at hd; exact Bool.noConfusion hd
    · exact hsl
  have hperI : ∀ i, i < srcs.length →
      projOut (mergeRun (initState srcs) sched).outLog i = sourceList srcs i := by
    intro i hi
    have hh := hinv.history i
    rw [hdrained i hi, List.append_nil] at hh
    exact hh
  refine ⟨?_, hperI, ?_⟩
  · rw [multiset_proj_sum _ srcs.length hinv.tags]
    exact Finset.sum_congr rfl fun i hi => by rw [hperI i (Finset.mem_range.mp hi)]
  · simp [drainedOutput, recvObserve, hclosed]

/-- Witness for C1: two sources emitting `[1,3]` and `[2,4]`, drained to
completion by an explicit schedule. -/
theorem merge_drain_multiset_order_witness :
    ((∀ c ∈ ([⟨[1, 3], true⟩, ⟨[2, 4], true⟩] : List (ChanState Nat)), c.closed = true) ∧
     MergeAction.fireDone ∉ [MergeAction.workerRecv 0, .workerRecv 0, .workerRecv 0,
       .workerRecv 1, .workerRecv 1, .workerRecv 1, .closeOutput] ∧
     (mergeRun (initState ([⟨[1, 3], true⟩, ⟨[2, 4], true⟩] : List (ChanState Nat)))
       [MergeAction.workerRecv 0, .workerRecv 0, .workerRecv 0,
        .workerRecv 1, .workerRecv 1, .workerRecv 1, .closeOutput]).outClosed = true) ∧
    ((((mergeRun (initState ([⟨[1, 3], true⟩, ⟨[2, 4], true⟩] : List (ChanState Nat)))
        [MergeAction.workerRecv 0, .workerRecv 0, .workerRecv 0,
         .workerRecv 1, .workerRecv 1, .workerRecv 1, .closeOutput]).outLog.map Prod.snd :
        List Nat) : Multiset Nat) =
      ∑ i ∈ Finset.range 2,
        ((sourceList ([⟨[1, 3], true⟩, ⟨[2, 4], true⟩] : List (ChanState Nat)) i :
          List Nat) : Multiset Nat) ∧
     (∀ i, i < 2 →
       projOut (mergeRun (initState ([⟨[1, 3], true⟩, ⟨[2, 4], true⟩] : List (ChanState Nat)))
         [MergeAction.workerRecv 0, .workerRecv 0, .workerRecv 0,
          .workerRecv 1, .workerRecv 1, .workerRecv 1, .closeOutput]).outLog i =
         sourceList ([⟨[1, 3], true⟩, ⟨[2, 4], true⟩] : List (ChanState Nat)) i) ∧
     recvObserve (drainedOutput
       (mergeRun (initState ([⟨[1, 3], true⟩, ⟨[2, 4], true⟩] : List (ChanState Nat)))
         [MergeAction.workerRecv 0, .workerRecv 0, .workerRecv 0,
          .workerRecv 1, .workerRecv 1, .workerRecv 1, .closeOutput])) =
       RecvOutcome.closedEmpty) :=
  ⟨⟨by decide, by decide, by decide⟩,
    merge_drain_multiset_order _ _ (by decide) (by decide) (by decide)⟩

/-- C7: the output is closed only after the completion counter reaches zero
with every worker stopped; the closed transition happens at most once in any
scheduled execution; and after closure no further element is delivered under
any continuation, with every read of the drained output reporting the
terminal closed state. -/
theorem merge_closes_once_after_all_workers {E : Type} (srcs : List (ChanState E))
    (sched : List MergeAction) :
    ((mergeRun (initState srcs) sched).outClosed = true →
      (mergeRun (initState srcs) sched).counter = 0 ∧
      ∀ i, (mergeRun (initState srcs) sched).running.getD i false = false) ∧
    closeCount (initState srcs) sched ≤ 1 ∧
    ((mergeRun (initState srcs) sched).outClosed = true →
      ∀ more : List MergeAction,
        (mergeRun (mergeRun (initState srcs) sched) more).outLog =
          (mergeRun (initState srcs) sched).outLog ∧
        recvObserve (drainedOutput (mergeRun (mergeRun (initState srcs) sched) more)) =
          RecvOutcome.closedEmpty) := by
  have hinv := mergeInv_run (mergeInv_init srcs) sched
  have hstopped : (mergeRun (initState srcs) sched).outClosed = true →
      ∀ i, (mergeRun (initState srcs) sched).running.getD i false = false := by
    intro hoc
    apply getD_false_of_count_zero
    rw [← hinv.counterEq]
    exact hinv.closedCounter hoc
  refine ⟨fun hoc => ⟨hinv.closedCounter hoc, hstopped hoc⟩, ?_, ?_⟩
  · rw [closeCount_spec sched (initState srcs) rfl]
    split
    · exact Nat.le_refl 1
    · exact Nat.zero_le 1
  · intro hoc more
    obtain ⟨hl, hc⟩ := mergeRun_frozen _ more (hstopped hoc) hoc
    exact ⟨hl, by simp [drainedOutput, recvObserve, hc]⟩

/-- Witness for C7: one source emitting `[5]`, drained and closed, then
scheduled further. -/
theorem merge_closes_once_after_all_workers_witness :
    ((mergeRun (initState ([⟨[5], true⟩] : List (ChanState Nat)))
        [MergeAction.workerRecv 0, .workerRecv 0, .closeOutput]).counter = 0 ∧
      ∀ i, (mergeRun (initState ([⟨[5], true⟩] : List (ChanState Nat)))
        [MergeAction.workerRecv 0, .workerRecv 0, .closeOutput]).running.getD i false = false) ∧
    closeCount (initState ([⟨[5], true⟩] : List (ChanState Nat)))
      [MergeAction.workerRecv 0, .workerRecv 0, .closeOutput] ≤ 1 ∧
    ((mergeRun (mergeRun (initState ([⟨[5], true⟩] : List (ChanState Nat)))
        [MergeAction.workerRecv 0, .workerRecv 0, .closeOutput]) [.workerRecv 0]).outLog =
      (mergeRun (initState ([⟨[5], true⟩] : List (ChanState Nat)))
        [MergeAction.workerRecv 0, .workerRecv 0, .closeOutput]).outLog ∧
     recvObserve (drainedOutput (mergeRun (mergeRun
        (initState ([⟨[5], true⟩] : List (ChanState Nat)))
        [MergeAction.workerRecv 0, .workerRecv 0, .closeOutput]) [.workerRecv 0])) =
       RecvOutcome.closedEmpty) := by
  obtain ⟨h1, h2, h3⟩ := merge_closes_once_after_all_workers
    ([⟨[5], true⟩] : List (ChanState Nat))
    [MergeAction.workerRecv 0, .workerRecv 0, .closeOutput]
  exact ⟨h1 (by decide), h2, h3 (by decide) [.workerRecv 0]⟩

/-- C8: once the done channel has fired, every worker's next suspension has
the done case ready — taking it stops the worker — and the merge can always
be driven to a closed output by stopping each worker through the done case
and letting the coordinator close, even when sources never produce and never
close; so no worker blocks indefinitely past cancellation. -/
theorem cancellation_closes_merge {E : Type} (srcs : List (ChanState E))
    (sched : List MergeAction)
    (hdone : (mergeRun (initState srcs) sched).doneFired = true) :
    (∀ i, (mergeStep (mergeRun (initState srcs) sched)
      (.workerDone i)).running.getD i false = false) ∧
    (mergeRun (mergeRun (initState srcs) sched) (stopAll srcs.length)).outClosed = true := by
  refine ⟨fun i => workerDone_stops _ i hdone, ?_⟩
  exact stopAll_closes srcs _ (mergeInv_run (mergeInv_init srcs) sched) hdone

/-- Witness for C8: a single source that never produces and never closes,
with cancellation fired. -/
theorem cancellation_closes_merge_witness :
    (∀ i, (mergeStep (mergeRun (initState ([⟨[], false⟩] : List (ChanState Nat)))
      [MergeAction.fireDone]) (.workerDone i)).running.getD i false = false) ∧
    (mergeRun (mergeRun (initState ([⟨[], false⟩] : List (ChanState Nat)))
      [MergeAction.fireDone]) (stopAll 1)).outClosed = true :=
  cancellation_closes_merge ([⟨[], false⟩] : List (ChanState Nat)) [MergeAction.fireDone]
    (by decide)

/-- C9: the merge engine converts each worker's input to a receive-only
handle at setup, and during execution it only receives from sources: it
never changes any source's closed flag and only ever consumes pending
elements from the front, leaving the rest in order (the remaining pending
list is always a suffix of the original). -/
theorem engine_only_reads_inputs {E : Type} (ts : List GoType) (st : MergeSetup)
    (hok : FanIn ts = .ok st) (srcs : List (ChanState E)) (sched : List MergeAction) :
    st.workerInputDir = ChanDir.recvDir ∧
    (∀ i, ((mergeRun (initState srcs) sched).sources.get? i).map ChanState.closed =
      (srcs.get? i).map ChanState.closed) ∧
    (∀ i, sourceList (mergeRun (initState srcs) sched).sources i <:+ sourceList srcs i) := by
  have hinv := mergeInv_run (mergeInv_init srcs) sched
  refine ⟨?_, hinv.closedPres, ?_⟩
  · obtain ⟨d0, e0, rest, -, -, rfl⟩ := FanIn_ok_elim ts st hok
    rfl
  · intro i
    exact ⟨projOut (mergeRun (initState srcs) sched).outLog i, hinv.history i⟩

/-- Witness for C9: a bidirectional `int` channel at setup; one source
emitting `[7]`, partially consumed. -/
theorem engine_only_reads_inputs_witness :
    ({ elemType := GoType.intType, output := .chanType .bothDir .intType, outputCap := 0,
       numWorkers := 1, workerInputDir := .recvDir,
       returned := .chanType .recvDir .intType } : MergeSetup).workerInputDir =
      ChanDir.recvDir ∧
    (∀ i, ((mergeRun (initState ([⟨[7], true⟩] : List (ChanState Nat)))
        [MergeAction.workerRecv 0]).sources.get? i).map ChanState.closed =
      (([⟨[7], true⟩] : List (ChanState Nat)).get? i).map ChanState.closed) ∧
    (∀ i, sourceList (mergeRun (initState ([⟨[7], true⟩] : List (ChanState Nat)))
        [MergeAction.workerRecv 0]).sources i <:+
      sourceList ([⟨[7], true⟩] : List (ChanState Nat)) i) :=
  engine_only_reads_inputs [GoType.chanType .bothDir .intType]
    { elemType := GoType.intType, output := .chanType .bothDir .intType, outputCap := 0,
      numWorkers := 1, workerInputDir := .recvDir,
      returned := .chanType .recvDir .intType } rfl
    ([⟨[7], true⟩] : List (ChanState Nat)) [MergeAction.workerRecv 0]
